import Mathlib

/-!
Verification development for the OUCH-v3 expense-tracking application.

The definitions below shallowly embed the client-side logic of the app:
the voice-text parser (`parseVoiceInput`, HomeScreen), the aggregation and
reporting functions (`getFilteredTransactions`, `totalIncome`, `totalExpense`,
`netAmount`, `getCategoryBreakdown` from SummaryScreen, `getLineChartData`
and `getColorForCategory` from ChartsScreen and the monthly HomeScreen
variant), and the transaction-store mutations (`addTransaction`,
`updateTransaction`, `deleteTransaction` from the root layout).

Modelling conventions:
* Strings are modelled as `String` where only equality is needed and as
  `List Char` where character-level scanning happens (the parser).
* JS numbers carrying money amounts are modelled as `ℚ` (all operations
  used are additions, subtractions and divisions of exact decimal values).
* Calendar dates (the `transaction_date` field, a `YYYY-MM-DD` string) are
  modelled as the integer day number `d`; parsing such a string with
  `new Date` yields the timestamp `86400 * d` (midnight UTC, in seconds).
  The current instant `now` is an arbitrary integer number of seconds,
  written `86400 * D + r` with `D` the current day and `r` the time of day.
* The backend is modelled as a request/response oracle `RespResult`.
-/

namespace Ouch

/-- Transaction type enum from the data model (`'income' | 'expense'`). -/
inductive TxType
  | income
  | expense
deriving DecidableEq

/-- The `Transaction` record from `_layout.tsx`. -/
structure Transaction where
  id : String
  amount : ℚ
  category_id : String
  category_name : String
  transaction_type : TxType
  description : Option String
  currency : String
  transaction_date : ℤ
  created_at : String
  is_voice_input : Bool
deriving DecidableEq

/-- The `Category` record from `_layout.tsx`.  The display name is kept as a
character list because the parser scans it character-wise. -/
structure Category where
  id : String
  name : List Char
  color : String
  icon : String
  is_custom : Bool
  created_at : String
deriving DecidableEq

/-- Digit test used by the regex `\d` (code points 48–57). -/
def isDig (c : Char) : Bool := decide (48 ≤ c.toNat ∧ c.toNat ≤ 57)

/-- ASCII lower-casing as performed by JS `toLowerCase` on the characters the
app compares against (all its literals are ASCII): maps `A`–`Z` to `a`–`z`
and fixes everything else in that range. -/
def toLowerChar (c : Char) : Char := c.toLower

theorem toNat_ofNat_valid {n : ℕ} (h : n.isValidChar) : (Char.ofNat n).toNat = n := by
  unfold Char.ofNat
  rw [dif_pos h]
  rfl

theorem toNat_toLowerChar_of_upper {c : Char} (h : 65 ≤ c.toNat ∧ c.toNat ≤ 90) :
    (toLowerChar c).toNat = c.toNat + 32 := by
  unfold toLowerChar Char.toLower
  rw [if_pos h]
  exact toNat_ofNat_valid (Or.inl (by omega))

theorem toLowerChar_of_not_upper {c : Char} (h : ¬(65 ≤ c.toNat ∧ c.toNat ≤ 90)) :
    toLowerChar c = c := by
  unfold toLowerChar Char.toLower
  rw [if_neg h]

theorem isDig_toLowerChar (c : Char) : isDig (toLowerChar c) = isDig c := by
  by_cases h : 65 ≤ c.toNat ∧ c.toNat ≤ 90
  · have h32 := toNat_toLowerChar_of_upper h
    simp only [isDig, h32, decide_eq_decide]
    omega
  · rw [toLowerChar_of_not_upper h]

theorem toLowerChar_of_isDig {c : Char} (h : isDig c = true) : toLowerChar c = c := by
  have hd : 48 ≤ c.toNat ∧ c.toNat ≤ 57 := by
    simpa [isDig] using h
  exact toLowerChar_of_not_upper (by omega)

theorem toLowerChar_eq_dot (c : Char) : toLowerChar c = '.' ↔ c = '.' := by
  by_cases h : 65 ≤ c.toNat ∧ c.toNat ≤ 90
  · have h32 := toNat_toLowerChar_of_upper h
    constructor
    · intro hEq
      have hn := congrArg Char.toNat hEq
      rw [h32] at hn
      have hdot : ('.').toNat = 46 := rfl
      omega
    · intro hEq
      subst hEq
      exact absurd h (by decide)
  · rw [toLowerChar_of_not_upper h]

/-! ### Voice-text parser (`parseVoiceInput`, HomeScreen)

The JS code lowercases the utterance, extracts the first match of the regex
`(\d+(?:\.\d{2})?)`, infers the type from keyword containment, and picks the
first category of the list matching a substring or synonym rule. -/

/-- The match of the regex `\d+(?:\.\d{2})?` anchored at the start of `s`
(whose head is known to be a digit when this is called): the greedy digit run,
extended by `.dd` exactly when a dot and two digits follow. -/
def matchFrom (s : List Char) : List Char :=
  match s.dropWhile isDig with
  | c1 :: d1 :: d2 :: _ =>
      if c1 = '.' ∧ isDig d1 = true ∧ isDig d2 = true then
        s.takeWhile isDig ++ [c1, d1, d2]
      else s.takeWhile isDig
  | _ => s.takeWhile isDig

/-- Leftmost match of `\d+(?:\.\d{2})?` in `s` (JS `String.match` semantics):
scan to the first digit and take the greedy match there. -/
def firstMatch : List Char → Option (List Char)
  | [] => none
  | c :: cs => if isDig c = true then some (matchFrom (c :: cs)) else firstMatch cs

def earnedTok : List Char := ("earned").toList
def receivedTok : List Char := ("received").toList
def incomeTok : List Char := ("income").toList
def groceryTok : List Char := ("grocery").toList
def foodTok : List Char := ("food").toList
def utilityTok : List Char := ("utility").toList
def coffeeTok : List Char := ("coffee").toList
def restaurantTok : List Char := ("restaurant").toList
def groceriesName : List Char := ("Groceries").toList
def utilitiesName : List Char := ("Utilities").toList
def eatingOutName : List Char := ("Eating Out").toList

/-- JS `String.includes`: `w` occurs as a contiguous substring of `s`. -/
def containsStr (s w : List Char) : Bool := decide (w <:+: s)

/-- The category predicate inside `categories.find(...)` of `parseVoiceInput`. -/
def catMatchB (lowerText : List Char) (cat : Category) : Bool :=
  containsStr lowerText (cat.name.map toLowerChar) ||
  (decide (cat.name = groceriesName) &&
    (containsStr lowerText groceryTok || containsStr lowerText foodTok)) ||
  (decide (cat.name = utilitiesName) && containsStr lowerText utilityTok) ||
  (decide (cat.name = eatingOutName) &&
    (containsStr lowerText coffeeTok || containsStr lowerText restaurantTok))

/-- The field suggestions produced by `parseVoiceInput`: optional amount
(matched digits), inferred type, optional category, description. -/
structure ParsedVoice where
  amount : Option (List Char)
  txType : TxType
  category : Option Category
  description : List Char
deriving DecidableEq

/-- `parseVoiceInput` from HomeScreen (`src/unnamed/part_000`, lines 60–95). -/
def parseVoiceInput (cats : List Category) (voiceText : List Char) : ParsedVoice :=
  let lowerText := voiceText.map toLowerChar
  ⟨firstMatch lowerText,
   if containsStr lowerText earnedTok || containsStr lowerText receivedTok ||
      containsStr lowerText incomeTok then TxType.income else TxType.expense,
   cats.find? (catMatchB lowerText),
   voiceText⟩

/-! ### Period filter and totals (SummaryScreen / TransactionsScreen) -/

/-- A reporting window: the relative `7`/`30`/`90`-day periods of the screens,
or `all` (TransactionsScreen only). -/
inductive Period
  | all
  | days (n : ℕ)

/-- `getFilteredTransactions`: keep transactions whose parsed date is at or
after `now` minus the window; `all` keeps the list unchanged
(`src/unnamed/part_001` lines 1144–1156; same day-window filter in
SummaryScreen lines 27–35 and ChartsScreen lines 28–36). -/
def getFilteredTransactions (now : ℤ) (p : Period) (txs : List Transaction) :
    List Transaction :=
  match p with
  | Period.all => txs
  | Period.days n =>
      txs.filter (fun t => decide (now - 86400 * (n : ℤ) ≤ 86400 * t.transaction_date))

/-- `totalIncome` (SummaryScreen lines 40–42). -/
def totalIncome (txs : List Transaction) : ℚ :=
  (txs.filter (fun t => decide (t.transaction_type = TxType.income))).foldl
    (fun s t => s + t.amount) 0

/-- `totalExpense` (SummaryScreen lines 44–46). -/
def totalExpense (txs : List Transaction) : ℚ :=
  (txs.filter (fun t => decide (t.transaction_type = TxType.expense))).foldl
    (fun s t => s + t.amount) 0

/-- `netAmount` (SummaryScreen line 48). -/
def netAmount (txs : List Transaction) : ℚ := totalIncome txs - totalExpense txs

/-! ### Category breakdown (SummaryScreen lines 50–68 and 125–146) -/

/-- One group of the breakdown: category display name, summed amount, count. -/
structure CatAgg where
  name : String
  amount : ℚ
  count : ℕ
deriving DecidableEq

/-- One step of the `forEach` accumulation in `getCategoryBreakdown`: a JS
object keyed by category name, new keys appended in first-seen order. -/
def accumCat (acc : List CatAgg) (t : Transaction) : List CatAgg :=
  if acc.any (fun g => g.name = t.category_name) then
    acc.map (fun g =>
      if g.name = t.category_name then ⟨g.name, g.amount + t.amount, g.count + 1⟩ else g)
  else acc ++ [⟨t.category_name, t.amount, 1⟩]

/-- `getCategoryBreakdown`: accumulate every transaction of the (already
period-filtered) list into per-category groups, then sort by amount
descending. -/
def getCategoryBreakdown (txs : List Transaction) : List CatAgg :=
  List.insertionSort (fun a b => b.amount ≤ a.amount) (txs.foldl accumCat [])

/-- The percentage computed in `renderCategoryBreakdown` (line 126):
`totalExpense > 0 ? item.amount / totalExpense * 100 : 0`. -/
def breakdownPercentage (texp : ℚ) (g : CatAgg) : ℚ :=
  if 0 < texp then g.amount / texp * 100 else 0

/-! ### Daily spending trend (`getLineChartData`, ChartsScreen lines 101–128)

`now` is written `86400 * D + r`: `D` is the current calendar day, `r` the
time of day in seconds. The init loop creates one zero bucket per day
`D-(n-1) … D`; the accumulation adds each filtered expense to the bucket of
its date, appending a fresh key when the date has no bucket. -/

/-- The `Initialize all days with 0` loop: keys oldest-first. -/
def bucketInit (D : ℤ) (n : ℕ) : List (ℤ × ℚ) :=
  (List.range n).map (fun j : ℕ => (D - (n : ℤ) + 1 + (j : ℤ), (0 : ℚ)))

/-- One step of the `Fill in actual spending data` loop:
`dailyData[date] = (dailyData[date] || 0) + t.amount`. -/
def accumDaily (acc : List (ℤ × ℚ)) (t : Transaction) : List (ℤ × ℚ) :=
  if acc.any (fun p => p.1 = t.transaction_date) then
    acc.map (fun p =>
      if p.1 = t.transaction_date then (p.1, p.2 + t.amount) else p)
  else acc ++ [(t.transaction_date, t.amount)]

/-- `getLineChartData`: zero buckets for the window, accumulate the filtered
expense transactions, return entries sorted by date ascending. -/
def getLineChartData (D r : ℤ) (n : ℕ) (txs : List Transaction) : List (ℤ × ℚ) :=
  List.insertionSort (fun p q => p.1 ≤ q.1)
    (((getFilteredTransactions (86400 * D + r) (Period.days n) txs).filter
        (fun t => decide (t.transaction_type = TxType.expense))).foldl
      accumDaily (bucketInit D n))

/-! ### Category colors (`getColorForCategory`, ChartsScreen lines 130–140 and
the monthly HomeScreen variant, `src/unnamed/part_002` lines 93–103) -/

/-- JS `ToInt32`: reduce mod `2^32` into `[-2^31, 2^31)`. -/
def toInt32 (x : ℤ) : ℤ :=
  if 2147483648 ≤ x % 4294967296 then x % 4294967296 - 4294967296 else x % 4294967296

/-- One step of the hash loop
`hash = charCodeAt(i) + ((hash << 5) - hash)`; `<<` truncates to int32. -/
def hashStep (h : ℤ) (c : Char) : ℤ :=
  (c.toNat : ℤ) + (toInt32 (toInt32 h * 32) - h)

/-- The fixed 10-color palette shared by both copies. -/
def palette : List String :=
  ["#FF6B6B", "#4ECDC4", "#45B7D1", "#FFA07A", "#98D8C8",
   "#F7DC6F", "#BB8FCE", "#85C1E9", "#F8C471", "#D5A6BD"]

/-- `getColorForCategory` as written in ChartsScreen. -/
def getColorForCategoryCharts (categoryName : List Char) : String :=
  palette.getD ((categoryName.foldl hashStep 0).natAbs % palette.length) ("#000000")

/-- `getColorForCategory` as written in the monthly HomeScreen variant. -/
def getColorForCategoryMonthly (categoryName : List Char) : String :=
  palette.getD ((categoryName.foldl hashStep 0).natAbs % palette.length) ("#000000")

/-! ### Store mutations (`_layout.tsx` lines 119–180)

Each mutation performs a backend call that yields a successful payload, a
non-ok HTTP response, or a thrown network error. Only the ok branch calls
`setTransactions`; both failure branches throw to the caller. -/

/-- Outcome of one backend request. -/
inductive RespResult (α : Type)
  | ok (v : α)
  | httpError
  | networkError

/-- A response that did not produce a payload. -/
def RespResult.isFailure {α : Type} : RespResult α → Bool
  | RespResult.ok _ => false
  | RespResult.httpError => true
  | RespResult.networkError => true

/-- `addTransaction` (lines 119–139): on ok, prepend the created transaction;
otherwise throw and touch nothing. -/
def addTransaction (resp : RespResult Transaction) (prev : List Transaction) :
    Except String (List Transaction) :=
  match resp with
  | RespResult.ok newTx => Except.ok (newTx :: prev)
  | RespResult.httpError => Except.error ("Failed to add transaction")
  | RespResult.networkError => Except.error ("Error adding transaction")

/-- `updateTransaction` (lines 141–161): on ok, replace the matching id. -/
def updateTransaction (id : String) (resp : RespResult Transaction)
    (prev : List Transaction) : Except String (List Transaction) :=
  match resp with
  | RespResult.ok upd =>
      Except.ok (prev.map (fun t => if t.id = id then upd else t))
  | RespResult.httpError => Except.error ("Failed to update transaction")
  | RespResult.networkError => Except.error ("Error updating transaction")

/-- `deleteTransaction` (lines 163–180): on ok, drop the matching id. -/
def deleteTransaction (id : String) (resp : RespResult Unit)
    (prev : List Transaction) : Except String (List Transaction) :=
  match resp with
  | RespResult.ok _ =>
      Except.ok (prev.filter (fun t => !(decide (t.id = id))))
  | RespResult.httpError => Except.error ("Failed to delete transaction")
  | RespResult.networkError => Except.error ("Error deleting transaction")

/-- The in-memory transaction list after a mutation: the new list when the
call returned one, the prior list when it threw. -/
def transactionsAfter (prev : List Transaction)
    (r : Except String (List Transaction)) : List Transaction :=
  match r with
  | Except.ok l => l
  | Except.error _ => prev

/-! ### Specification-side predicates (phrased from the spec text, to be
compared with the source-derived functions above) -/

/-- A string matching the amount regex `\d+(\.\d{2})?`: a nonempty digit run,
optionally followed by a dot and exactly two digits. -/
def IsNumTok (m : List Char) : Prop :=
  ∃ ds f, m = ds ++ f ∧ ds ≠ [] ∧ (∀ c ∈ ds, isDig c = true) ∧
    (f = [] ∨ ∃ d1 d2, isDig d1 = true ∧ isDig d2 = true ∧ f = ['.', d1, d2])

/-- `m` matches the amount regex at position `p` of `text`. -/
def NumTokAt (text m : List Char) (p : ℕ) : Prop :=
  IsNumTok m ∧ m <+: text.drop p

/-- `m` is the first (leftmost, then longest) substring of `text` matching
the amount regex. -/
def FirstNumTok (text m : List Char) : Prop :=
  ∃ p, NumTokAt text m p ∧ (∀ q m2, q < p → ¬NumTokAt text m2 q) ∧
    (∀ m2, NumTokAt text m2 p → m2.length ≤ m.length)

/-- The spec's category-inference rule: the category's display name occurs
case-insensitively in the text, or one of the fixed synonym rules fires. -/
def CatMatches (lowerText : List Char) (cat : Category) : Prop :=
  (cat.name.map toLowerChar) <:+: lowerText ∨
  (cat.name = groceriesName ∧ (groceryTok <:+: lowerText ∨ foodTok <:+: lowerText)) ∨
  (cat.name = utilitiesName ∧ utilityTok <:+: lowerText) ∨
  (cat.name = eatingOutName ∧ (coffeeTok <:+: lowerText ∨ restaurantTok <:+: lowerText))

/-- The window filter as the claim states it: both bounds of
`[now − N days, now]` enforced. -/
def windowFilterClaim (now : ℤ) (n : ℕ) (txs : List Transaction) : List Transaction :=
  txs.filter (fun t =>
    decide (now - 86400 * (n : ℤ) ≤ 86400 * t.transaction_date ∧
      86400 * t.transaction_date ≤ now))

/-- Sum of the amounts of the expense transactions of `txs` dated day `d`. -/
def expenseDaySum (txs : List Transaction) (d : ℤ) : ℚ :=
  ((txs.filter (fun t =>
      decide (t.transaction_type = TxType.expense) &&
      decide (t.transaction_date = d))).map (fun t => t.amount)).sum

/-! ### Concrete sample data used by counterexamples and witnesses -/

/-- An expense dated day 200 (in the future of `now = day 100`). -/
def futureTx : Transaction :=
  ⟨"t-future", 5, "c-tr", "Travel", TxType.expense, none, "INR", 200, "x", false⟩

/-- An income of 100 in category `Salary`, dated day 100. -/
def salaryTx : Transaction :=
  ⟨"t-sal", 100, "c-sal", "Salary", TxType.income, none, "INR", 100, "x", false⟩

/-- An expense of 50 in category `Food`, dated day 100. -/
def foodTx : Transaction :=
  ⟨"t-food", 50, "c-food", "Food", TxType.expense, none, "INR", 100, "x", false⟩

/-- The seeded `Groceries` category. -/
def groceriesCat : Category :=
  ⟨"c-gro", groceriesName, "#FF6B6B", "cart", false, "x"⟩

/-! ### Helper lemmas -/

theorem foldl_add_amount (l : List Transaction) (s : ℚ) :
    l.foldl (fun a t => a + t.amount) s = s + (l.map (fun t => t.amount)).sum := by
  induction l generalizing s with
  | nil => simp
  | cons t ts ih =>
      simp only [List.foldl_cons, List.map_cons, List.sum_cons, ih (s + t.amount)]
      ring

theorem income_eq_expense_false : (TxType.income = TxType.expense) = False :=
  eq_false (by decide)

theorem expense_eq_income_false : (TxType.expense = TxType.income) = False :=
  eq_false (by decide)

/-! ### Claim theorems -/

/-- **C7.** For every transaction list, the income total is the sum of the
amounts of the income transactions, the expense total is the sum of the
amounts of the expense transactions, the net total is exactly income minus
expense, and on the empty list all three totals are `0`. -/
theorem totals_income_expense_net (txs : List Transaction) :
    totalIncome txs =
      ((txs.filter (fun t => decide (t.transaction_type = TxType.income))).map
        (fun t => t.amount)).sum ∧
    totalExpense txs =
      ((txs.filter (fun t => decide (t.transaction_type = TxType.expense))).map
        (fun t => t.amount)).sum ∧
    netAmount txs = totalIncome txs - totalExpense txs ∧
    totalIncome ([] : List Transaction) = 0 ∧
    totalExpense ([] : List Transaction) = 0 ∧
    netAmount ([] : List Transaction) = 0 := by
  refine ⟨?_, ?_, rfl, rfl, rfl, ?_⟩
  · rw [totalIncome, foldl_add_amount, zero_add]
  · rw [totalExpense, foldl_add_amount, zero_add]
  · norm_num [netAmount, totalIncome, totalExpense]

/-- **C8.** The category-color function is a pure function of the category
name (hence deterministic across repeated calls), always returns an element
of the fixed 10-color palette, and the copy in ChartsScreen and the copy in
the monthly HomeScreen variant agree on every category name. -/
theorem getColorForCategory_shared_and_in_palette (categoryName : List Char) :
    getColorForCategoryCharts categoryName = getColorForCategoryMonthly categoryName ∧
    getColorForCategoryCharts categoryName ∈ palette := by
  constructor
  · rfl
  · have hlt : (categoryName.foldl hashStep 0).natAbs % palette.length < palette.length :=
      Nat.mod_lt _ (by decide)
    rw [getColorForCategoryCharts, List.getD_eq_getElem palette _ hlt]
    exact List.getElem_mem hlt

/-- **C9.** For each store mutation, a failed backend call (non-ok response
or thrown network error) leaves the in-memory transaction list unchanged;
only a successful response produces a new list. -/
theorem mutation_failure_keeps_transactions (respA respU : RespResult Transaction)
    (respD : RespResult Unit) (id : String) (prev : List Transaction) :
    (respA.isFailure = true →
      transactionsAfter prev (addTransaction respA prev) = prev) ∧
    (respU.isFailure = true →
      transactionsAfter prev (updateTransaction id respU prev) = prev) ∧
    (respD.isFailure = true →
      transactionsAfter prev (deleteTransaction id respD prev) = prev) := by
  refine ⟨?_, ?_, ?_⟩
  · intro h
    cases respA with
    | ok v => exact absurd h (by simp [RespResult.isFailure])
    | httpError => rfl
    | networkError => rfl
  · intro h
    cases respU with
    | ok v => exact absurd h (by simp [RespResult.isFailure])
    | httpError => rfl
    | networkError => rfl
  · intro h
    cases respD with
    | ok v => exact absurd h (by simp [RespResult.isFailure])
    | httpError => rfl
    | networkError => rfl

/-- Witness for **C9** at concrete inputs: a non-ok add, update and delete
against the one-element list `[foodTx]` all leave it unchanged. -/
theorem mutation_failure_keeps_transactions_witness :
    transactionsAfter [foodTx] (addTransaction RespResult.httpError [foodTx]) = [foodTx] ∧
    transactionsAfter [foodTx]
      (updateTransaction ("t-food") RespResult.networkError [foodTx]) = [foodTx] ∧
    transactionsAfter [foodTx]
      (deleteTransaction ("t-food") RespResult.httpError [foodTx]) = [foodTx] :=
  ⟨(mutation_failure_keeps_transactions RespResult.httpError RespResult.networkError
      RespResult.httpError ("t-food") [foodTx]).1 (by decide),
   (mutation_failure_keeps_transactions RespResult.httpError RespResult.networkError
      RespResult.httpError ("t-food") [foodTx]).2.1 (by decide),
   (mutation_failure_keeps_transactions RespResult.httpError RespResult.networkError
      RespResult.httpError ("t-food") [foodTx]).2.2 (by decide)⟩

/-- **C10.** A successful `addTransaction` prepends the created transaction
at the head of the in-memory list and keeps every prior transaction
unchanged, in its prior relative order. -/
theorem addTransaction_success_prepends (t : Transaction) (prev : List Transaction) :
    transactionsAfter prev (addTransaction (RespResult.ok t) prev) = t :: prev ∧
    (transactionsAfter prev (addTransaction (RespResult.ok t) prev)).head? = some t ∧
    (transactionsAfter prev (addTransaction (RespResult.ok t) prev)).tail = prev :=
  ⟨rfl, rfl, rfl⟩

/-- **C6, counterexample.** With `now` = day 100 plus one hour and the 7-day
window, a transaction dated day 200 — outside `[now − 7 days, now]` — is
retained by the filter: the filter enforces no upper bound, so the claim's
"exactly those transactions whose date falls within `[now − N days, now]`"
fails. -/
theorem getFilteredTransactions_retains_future_dated :
    getFilteredTransactions 8643600 (Period.days 7) [futureTx] = [futureTx] ∧
    ¬(86400 * futureTx.transaction_date ≤ 8643600) := by
  constructor
  · decide
  · decide

/-- **C6, amended.** For a relative window of `N` days the filter retains
exactly the transactions whose parsed date is at or after `now − N` days
(lower bound inclusive, no upper bound), and the `all` window returns the
list unchanged. -/
theorem getFilteredTransactions_spec (now : ℤ) (n : ℕ) (txs : List Transaction) :
    (∀ t, t ∈ getFilteredTransactions now (Period.days n) txs ↔
      t ∈ txs ∧ now - 86400 * (n : ℤ) ≤ 86400 * t.transaction_date) ∧
    getFilteredTransactions now Period.all txs = txs := by
  constructor
  · intro t
    simp [getFilteredTransactions, List.mem_filter]
  · rfl

/-- Witness for **C6 (amended)** at concrete inputs: day-100 transactions
pass the 30-day filter at `now` = day 100 plus one hour, and `all` is the
identity there. -/
theorem getFilteredTransactions_spec_witness :
    (salaryTx ∈ getFilteredTransactions 8643600 (Period.days 30) [salaryTx, foodTx]) ∧
    getFilteredTransactions 8643600 Period.all [salaryTx, foodTx] = [salaryTx, foodTx] :=
  ⟨((getFilteredTransactions_spec 8643600 30 [salaryTx, foodTx]).1 salaryTx).mpr
      (by refine ⟨by decide, by decide⟩),
   (getFilteredTransactions_spec 8643600 30 [salaryTx, foodTx]).2⟩

/-- **C1.** Evaluation of SummaryScreen's category breakdown at the failing
input: with one income (`Salary`, 100) and one expense (`Food`, 50) in the
window, the breakdown contains a `Salary` group — income transactions are
grouped too, contrary to the documented expense-only grouping — the
per-category amounts sum to 150 while the window's total expense is 50, and
the `Salary` row renders a percentage of 200%. -/
theorem getCategoryBreakdown_groups_income_at_failing_input :
    getCategoryBreakdown
        (getFilteredTransactions 8643600 (Period.days 30) [salaryTx, foodTx]) =
      [⟨"Salary", 100, 1⟩, ⟨"Food", 50, 1⟩] ∧
    totalExpense (getFilteredTransactions 8643600 (Period.days 30) [salaryTx, foodTx]) = 50 ∧
    breakdownPercentage 50 ⟨"Salary", 100, 1⟩ = 200 ∧
    ((getCategoryBreakdown
        (getFilteredTransactions 8643600 (Period.days 30) [salaryTx, foodTx])).map
      (fun g => g.amount)).sum ≠
      totalExpense (getFilteredTransactions 8643600 (Period.days 30) [salaryTx, foodTx]) := by
  refine ⟨?_, ?_, ?_, ?_⟩
  · norm_num [getCategoryBreakdown, getFilteredTransactions, salaryTx, foodTx, accumCat,
      List.insertionSort, List.orderedInsert]
  · norm_num [totalExpense, getFilteredTransactions, salaryTx, foodTx,
      List.filter_cons, List.filter_nil, income_eq_expense_false, expense_eq_income_false]
  · norm_num [breakdownPercentage]
  · norm_num [getCategoryBreakdown, getFilteredTransactions, salaryTx, foodTx, accumCat,
      List.insertionSort, List.orderedInsert, totalExpense,
      List.filter_cons, List.filter_nil, income_eq_expense_false, expense_eq_income_false]

/-! ### Claim C2: the day-bucketed trend series -/

/-- Sum of the amounts of the transactions of `ts` dated day `d`. -/
def daySum (ts : List Transaction) (d : ℤ) : ℚ :=
  ((ts.filter (fun t => decide (t.transaction_date = d))).map (fun t => t.amount)).sum

theorem daySum_cons (t : Transaction) (ts : List Transaction) (d : ℤ) :
    daySum (t :: ts) d =
      (if t.transaction_date = d then t.amount else 0) + daySum ts d := by
  by_cases hd : t.transaction_date = d <;>
    simp [daySum, List.filter_cons, hd]

theorem accumDaily_of_mem (acc : List (ℤ × ℚ)) (t : Transaction)
    (h : acc.any (fun p => decide (p.1 = t.transaction_date)) = true) :
    accumDaily acc t =
      acc.map (fun p =>
        (p.1, p.2 + if p.1 = t.transaction_date then t.amount else 0)) := by
  unfold accumDaily
  rw [if_pos h]
  apply List.map_congr_left
  intro p _
  by_cases hp : p.1 = t.transaction_date <;> simp [hp]

theorem foldl_accumDaily (ts : List Transaction) :
    ∀ init : List (ℤ × ℚ),
      (∀ t ∈ ts, init.any (fun p => decide (p.1 = t.transaction_date)) = true) →
      ts.foldl accumDaily init = init.map (fun p => (p.1, p.2 + daySum ts p.1)) := by
  induction ts with
  | nil =>
      intro init _
      simp [daySum]
  | cons t ts ih =>
      intro init h
      rw [List.foldl_cons, accumDaily_of_mem init t (h t (by simp)),
        ih _ ?nextKeys, List.map_map]
      case nextKeys =>
        intro t2 ht2
        rw [List.any_map]
        have hbase := h t2 (List.mem_cons_of_mem t ht2)
        rw [List.any_eq_true] at hbase ⊢
        obtain ⟨p, hp, hpd⟩ := hbase
        exact ⟨p, hp, hpd⟩
      apply List.map_congr_left
      intro p _
      rw [Function.comp_apply, daySum_cons]
      have hcomm : (t.transaction_date = p.1) ↔ (p.1 = t.transaction_date) := eq_comm
      by_cases hp : p.1 = t.transaction_date
      · rw [if_pos hp, if_pos (hcomm.mpr hp)]
        ring_nf
      · rw [if_neg hp, if_neg (fun hx => hp (hcomm.mp hx))]
        ring_nf

theorem mem_bucketInit_any (D : ℤ) (n : ℕ) (d : ℤ)
    (h1 : D - (n : ℤ) + 1 ≤ d) (h2 : d ≤ D) :
    (bucketInit D n).any (fun p => decide (p.1 = d)) = true := by
  rw [List.any_eq_true]
  refine ⟨(d, 0), ?_, by simp⟩
  rw [bucketInit, List.mem_map]
  refine ⟨(d - (D - (n : ℤ) + 1)).toNat, List.mem_range.mpr (by omega), ?_⟩
  rw [Prod.mk.injEq]
  exact ⟨by omega, rfl⟩

theorem bucketShape_sorted (D : ℤ) (n : ℕ) (f : ℤ → ℚ) :
    List.Sorted (fun p q : ℤ × ℚ => p.1 ≤ q.1)
      ((List.range n).map (fun j : ℕ =>
        (D - (n : ℤ) + 1 + (j : ℤ), f (D - (n : ℤ) + 1 + (j : ℤ))))) := by
  rw [List.Sorted, List.pairwise_map]
  refine (List.pairwise_lt_range n).imp ?_
  intro a b hab
  show D - (n : ℤ) + 1 + (a : ℤ) ≤ D - (n : ℤ) + 1 + (b : ℤ)
  omega

/-- **C2, counterexample.** At `now` = day 100 plus one hour with the 7-day
window, a single future-dated expense (day 200) passes the period filter but
has no bucket of its own, so the accumulation appends an extra entry: the
series has 8 entries, not the 7 the claim promises. -/
theorem getLineChartData_extra_bucket :
    (getLineChartData 100 3600 7 [futureTx]).length = 8 ∧
    (getLineChartData 100 3600 7 [futureTx]).length ≠ 7 := by
  constructor
  · decide
  · decide

/-- **C2, amended.** Provided the current time is strictly after midnight and
every expense transaction is dated no later than the current day `D`, the
series has exactly `n` entries, one per calendar day `D-(n-1) … D` in
ascending order, each equal to the summed expense amounts of that day (`0`
when no expense falls on it). Without those provisos, filtered expenses
dated outside the window's days append extra entries. -/
theorem getLineChartData_zero_fill (D r : ℤ) (n : ℕ) (txs : List Transaction)
    (hr0 : 0 < r) (hr1 : r < 86400)
    (hD : ∀ t ∈ txs, t.transaction_type = TxType.expense → t.transaction_date ≤ D) :
    getLineChartData D r n txs =
      (List.range n).map (fun j : ℕ =>
        (D - (n : ℤ) + 1 + (j : ℤ), expenseDaySum txs (D - (n : ℤ) + 1 + (j : ℤ)))) ∧
    (getLineChartData D r n txs).length = n := by
  have hmain : getLineChartData D r n txs =
      (List.range n).map (fun j : ℕ =>
        (D - (n : ℤ) + 1 + (j : ℤ), expenseDaySum txs (D - (n : ℤ) + 1 + (j : ℤ)))) := by
    have hwin : getFilteredTransactions (86400 * D + r) (Period.days n) txs =
        txs.filter (fun t =>
          decide (86400 * D + r - 86400 * (n : ℤ) ≤ 86400 * t.transaction_date)) := rfl
    have hkeys : ∀ t ∈ (getFilteredTransactions (86400 * D + r) (Period.days n) txs).filter
        (fun t => decide (t.transaction_type = TxType.expense)),
        D - (n : ℤ) + 1 ≤ t.transaction_date ∧ t.transaction_date ≤ D := by
      intro t ht
      have h1 := List.mem_filter.mp ht
      have h2 := List.mem_filter.mp (show t ∈ List.filter (fun t =>
        decide (86400 * D + r - 86400 * (n : ℤ) ≤ 86400 * t.transaction_date)) txs from
          hwin ▸ h1.1)
      have hexp : t.transaction_type = TxType.expense := of_decide_eq_true h1.2
      have hw : 86400 * D + r - 86400 * (n : ℤ) ≤ 86400 * t.transaction_date :=
        of_decide_eq_true h2.2
      refine ⟨by omega, hD t h2.1 hexp⟩
    have hfold := foldl_accumDaily
      ((getFilteredTransactions (86400 * D + r) (Period.days n) txs).filter
        (fun t => decide (t.transaction_type = TxType.expense)))
      (bucketInit D n)
      (fun t ht => mem_bucketInit_any D n t.transaction_date
        (hkeys t ht).1 (hkeys t ht).2)
    have hsum : ∀ j : ℕ, j ∈ List.range n →
        daySum ((getFilteredTransactions (86400 * D + r) (Period.days n) txs).filter
            (fun t => decide (t.transaction_type = TxType.expense)))
          (D - (n : ℤ) + 1 + (j : ℤ)) =
        expenseDaySum txs (D - (n : ℤ) + 1 + (j : ℤ)) := by
      intro j hj
      rw [daySum, expenseDaySum, hwin, List.filter_filter, List.filter_filter]
      have hpred : ∀ t ∈ txs,
          (decide (t.transaction_date = D - (n : ℤ) + 1 + (j : ℤ)) &&
            decide (t.transaction_type = TxType.expense) &&
            decide (86400 * D + r - 86400 * (n : ℤ) ≤ 86400 * t.transaction_date)) =
          (decide (t.transaction_type = TxType.expense) &&
            decide (t.transaction_date = D - (n : ℤ) + 1 + (j : ℤ))) := by
        intro t _
        by_cases hdte : t.transaction_date = D - (n : ℤ) + 1 + (j : ℤ)
        · by_cases hty : t.transaction_type = TxType.expense
          · simp [hdte, hty]
            omega
          · simp [hdte, hty]
        · simp [hdte]
      rw [List.filter_congr hpred]
    rw [getLineChartData, hfold, bucketInit, List.map_map]
    have hpt : ((fun p : ℤ × ℚ => (p.1, p.2 +
        daySum ((getFilteredTransactions (86400 * D + r) (Period.days n) txs).filter
          (fun t => decide (t.transaction_type = TxType.expense))) p.1)) ∘
        (fun j : ℕ => (D - (n : ℤ) + 1 + (j : ℤ), (0 : ℚ)))) =
        fun j : ℕ => (D - (n : ℤ) + 1 + (j : ℤ), (0 : ℚ) +
          daySum ((getFilteredTransactions (86400 * D + r) (Period.days n) txs).filter
            (fun t => decide (t.transaction_type = TxType.expense)))
            (D - (n : ℤ) + 1 + (j : ℤ))) := rfl
    rw [hpt]
    have hmapeq : (List.range n).map (fun j : ℕ => (D - (n : ℤ) + 1 + (j : ℤ), (0 : ℚ) +
        daySum ((getFilteredTransactions (86400 * D + r) (Period.days n) txs).filter
          (fun t => decide (t.transaction_type = TxType.expense)))
          (D - (n : ℤ) + 1 + (j : ℤ)))) =
        (List.range n).map (fun j : ℕ =>
          (D - (n : ℤ) + 1 + (j : ℤ), expenseDaySum txs (D - (n : ℤ) + 1 + (j : ℤ)))) := by
      apply List.map_congr_left
      intro j hj
      rw [zero_add, hsum j hj]
    rw [hmapeq]
    exact List.Sorted.insertionSort_eq (bucketShape_sorted D n (expenseDaySum txs))
  refine ⟨hmain, ?_⟩
  rw [hmain]
  simp

/-- Witness for **C2 (amended)** at concrete inputs: day `D = 100`, one hour
past midnight, a 2-day window and one in-window expense. -/
theorem getLineChartData_zero_fill_witness :
    getLineChartData 100 3600 2 [foodTx] =
      (List.range 2).map (fun j : ℕ =>
        ((100 : ℤ) - ((2 : ℕ) : ℤ) + 1 + (j : ℤ),
          expenseDaySum [foodTx] ((100 : ℤ) - ((2 : ℕ) : ℤ) + 1 + (j : ℤ)))) ∧
    (getLineChartData 100 3600 2 [foodTx]).length = 2 :=
  getLineChartData_zero_fill 100 3600 2 [foodTx] (by decide) (by decide)
    (by
      intro t ht _
      rw [List.mem_singleton] at ht
      subst ht
      decide)

/-! ### Claims C3–C5: the voice parser -/

theorem numTok_head {m : List Char} (h : IsNumTok m) :
    ∃ d t, m = d :: t ∧ isDig d = true := by
  obtain ⟨ds, f, hm, hne, hall, _⟩ := h
  cases ds with
  | nil => exact absurd rfl hne
  | cons d ds2 => exact ⟨d, ds2 ++ f, by simp [hm], hall d (by simp)⟩

theorem all_digit_imp_takeWhile :
    ∀ (ds s : List Char), ds <+: s → (∀ c ∈ ds, isDig c = true) →
      ds <+: s.takeWhile isDig := by
  intro ds
  induction ds with
  | nil => intro s _ _; exact List.nil_prefix
  | cons d ds ih =>
      intro s hpre hall
      obtain ⟨t, ht⟩ := hpre
      subst ht
      have hd : isDig d = true := hall d (by simp)
      rw [List.cons_append, List.takeWhile_cons_of_pos hd]
      exact List.cons_prefix_cons.mpr
        ⟨rfl, ih _ ⟨t, rfl⟩ (fun c hc => hall c (by simp [hc]))⟩

theorem matchFrom_run_le (s : List Char) :
    (s.takeWhile isDig).length ≤ (matchFrom s).length := by
  unfold matchFrom
  split
  · split_ifs
    · simp
    · exact le_refl _
  · exact le_refl _

theorem matchFrom_isNumTok {c : Char} {cs : List Char} (hc : isDig c = true) :
    IsNumTok (matchFrom (c :: cs)) ∧ matchFrom (c :: cs) <+: (c :: cs) := by
  have hrun : (c :: cs).takeWhile isDig = c :: cs.takeWhile isDig :=
    List.takeWhile_cons_of_pos hc
  have hne : (c :: cs).takeWhile isDig ≠ [] := by rw [hrun]; simp
  have hallrun : ∀ x ∈ (c :: cs).takeWhile isDig, isDig x = true :=
    fun x hx => List.mem_takeWhile_imp hx
  have hsplit : (c :: cs).takeWhile isDig ++ (c :: cs).dropWhile isDig = c :: cs :=
    List.takeWhile_append_dropWhile _ _
  unfold matchFrom
  split
  next c1 d1 d2 rest heq =>
    by_cases hcond : c1 = '.' ∧ isDig d1 = true ∧ isDig d2 = true
    · rw [if_pos hcond]
      obtain ⟨hdot, hd1, hd2⟩ := hcond
      constructor
      · exact ⟨(c :: cs).takeWhile isDig, [c1, d1, d2], rfl, hne, hallrun,
          Or.inr ⟨d1, d2, hd1, hd2, by rw [hdot]⟩⟩
      · refine ⟨rest, ?_⟩
        rw [List.append_assoc,
          show ([c1, d1, d2] : List Char) ++ rest = c1 :: d1 :: d2 :: rest from rfl,
          ← heq]
        exact hsplit
    · rw [if_neg hcond]
      exact ⟨⟨(c :: cs).takeWhile isDig, [], by simp, hne, hallrun, Or.inl rfl⟩,
        ⟨(c :: cs).dropWhile isDig, hsplit⟩⟩
  next hno =>
    exact ⟨⟨(c :: cs).takeWhile isDig, [], by simp, hne, hallrun, Or.inl rfl⟩,
      ⟨(c :: cs).dropWhile isDig, hsplit⟩⟩

theorem matchFrom_maximal {s m2 : List Char} (h2 : IsNumTok m2) (hp : m2 <+: s) :
    m2.length ≤ (matchFrom s).length := by
  obtain ⟨ds, f, rfl, hne, hall, hf⟩ := h2
  have hds_s : ds <+: s := (List.prefix_append ds f).trans hp
  have hds_run : ds <+: s.takeWhile isDig := all_digit_imp_takeWhile ds s hds_s hall
  rcases hf with rfl | ⟨d1, d2, hd1, hd2, rfl⟩
  · calc (ds ++ ([] : List Char)).length = ds.length := by simp
      _ ≤ (s.takeWhile isDig).length := hds_run.length_le
      _ ≤ (matchFrom s).length := matchFrom_run_le s
  · obtain ⟨e, he⟩ := hds_run
    cases e with
    | cons a e2 =>
        have ha : isDig a = true :=
          List.mem_takeWhile_imp (show a ∈ s.takeWhile isDig by rw [← he]; simp)
        have hs : s = ds ++ (a :: (e2 ++ s.dropWhile isDig)) := by
          conv_lhs => rw [← List.takeWhile_append_dropWhile isDig s]
          rw [← he]
          simp
        rw [hs] at hp
        have hp2 : ('.' :: d1 :: d2 :: ([] : List Char)) <+:
            (a :: (e2 ++ s.dropWhile isDig)) :=
          (List.prefix_append_right_inj ds).mp hp
        have hda : ('.' : Char) = a := (List.cons_prefix_cons.mp hp2).1
        rw [← hda] at ha
        exact absurd ha (by decide)
    | nil =>
        rw [List.append_nil] at he
        have hs : s = ds ++ s.dropWhile isDig := by
          conv_lhs => rw [← List.takeWhile_append_dropWhile isDig s]
          rw [← he]
        rw [hs] at hp
        have hp2 : ('.' :: d1 :: d2 :: ([] : List Char)) <+: s.dropWhile isDig :=
          (List.prefix_append_right_inj ds).mp hp
        obtain ⟨t2, ht2⟩ := hp2
        unfold matchFrom
        split
        next c1 e1 e2' rest heq =>
          rw [← ht2] at heq
          have hc1 : c1 = '.' := by
            have := heq
            injection this with h1 hrest
            exact h1.symm
          have hinj := heq
          injection hinj with h1 hrest1
          injection hrest1 with h2 hrest2
          injection hrest2 with h3 hrest3
          rw [if_pos ⟨hc1, by rw [← h2]; exact hd1, by rw [← h3]; exact hd2⟩]
          have hlen : ds.length = (s.takeWhile isDig).length := by rw [he]
          simp [List.length_append, hlen]
        next hno =>
          exact absurd ht2.symm (hno '.' d1 d2 t2)

theorem firstMatch_none_iff (text : List Char) :
    firstMatch text = none ↔ ∀ c ∈ text, isDig c = false := by
  induction text with
  | nil => simp [firstMatch]
  | cons c cs ih =>
      by_cases hc : isDig c = true
      · simp [firstMatch, hc]
      · have hc2 : isDig c = false := by simpa using hc
        simp [firstMatch, hc2, ih]

theorem firstMatch_some_first :
    ∀ (text m : List Char), firstMatch text = some m → FirstNumTok text m := by
  intro text
  induction text with
  | nil => intro m h; simp [firstMatch] at h
  | cons c cs ih =>
      intro m h
      by_cases hc : isDig c = true
      · rw [show firstMatch (c :: cs) =
            if isDig c = true then some (matchFrom (c :: cs)) else firstMatch cs from rfl,
          if_pos hc] at h
        injection h with h
        subst h
        refine ⟨0, ⟨(matchFrom_isNumTok hc).1, by
          rw [List.drop_zero]; exact (matchFrom_isNumTok hc).2⟩, ?_, ?_⟩
        · intro q m2 hq _
          exact absurd hq (Nat.not_lt_zero q)
        · intro m2 hTok
          have hp2 := hTok.2
          rw [List.drop_zero] at hp2
          exact matchFrom_maximal hTok.1 hp2
      · rw [show firstMatch (c :: cs) =
            if isDig c = true then some (matchFrom (c :: cs)) else firstMatch cs from rfl,
          if_neg hc] at h
        obtain ⟨p, ⟨htok, hpre⟩, hnoe, hmax⟩ := ih m h
        refine ⟨p + 1, ⟨htok, by rwa [List.drop_succ_cons]⟩, ?_, ?_⟩
        · intro q m2 hq hTok
          cases q with
          | zero =>
              obtain ⟨d, t2, rfl, hd⟩ := numTok_head hTok.1
              have hp0 := hTok.2
              rw [List.drop_zero] at hp0
              have hd_eq := (List.cons_prefix_cons.mp hp0).1
              rw [hd_eq] at hd
              exact hc hd
          | succ q2 =>
              have hq2 : q2 < p := by omega
              exact hnoe q2 m2 hq2 ⟨hTok.1, by
                have := hTok.2
                rwa [List.drop_succ_cons] at this⟩
        · intro m2 hTok
          exact hmax m2 ⟨hTok.1, by
            have := hTok.2
            rwa [List.drop_succ_cons] at this⟩

theorem comp_isDig_toLowerChar : isDig ∘ toLowerChar = isDig :=
  funext isDig_toLowerChar

theorem takeWhile_isDig_map_toLower (s : List Char) :
    (s.map toLowerChar).takeWhile isDig = s.takeWhile isDig := by
  rw [List.takeWhile_map, comp_isDig_toLowerChar]
  calc (s.takeWhile isDig).map toLowerChar
      = (s.takeWhile isDig).map id :=
        List.map_congr_left (fun x hx => toLowerChar_of_isDig (List.mem_takeWhile_imp hx))
    _ = s.takeWhile isDig := List.map_id _

theorem dropWhile_isDig_map_toLower (s : List Char) :
    (s.map toLowerChar).dropWhile isDig = (s.dropWhile isDig).map toLowerChar := by
  rw [List.dropWhile_map, comp_isDig_toLowerChar]

theorem matchFrom_map_toLower (s : List Char) :
    matchFrom (s.map toLowerChar) = matchFrom s := by
  unfold matchFrom
  rw [takeWhile_isDig_map_toLower, dropWhile_isDig_map_toLower]
  cases hdw : s.dropWhile isDig with
  | nil => rfl
  | cons c1 r1 =>
      cases r1 with
      | nil => rfl
      | cons d1 r2 =>
          cases r2 with
          | nil => rfl
          | cons d2 rest =>
              dsimp only [List.map_cons]
              by_cases hcond : c1 = '.' ∧ isDig d1 = true ∧ isDig d2 = true
              · obtain ⟨h1, h2, h3⟩ := hcond
                rw [if_pos ⟨(toLowerChar_eq_dot c1).mpr h1,
                    by rw [isDig_toLowerChar]; exact h2,
                    by rw [isDig_toLowerChar]; exact h3⟩,
                  if_pos ⟨h1, h2, h3⟩]
                rw [h1, show toLowerChar '.' = '.' from (toLowerChar_eq_dot '.').mpr rfl,
                  toLowerChar_of_isDig h2, toLowerChar_of_isDig h3]
              · rw [if_neg (fun hcl => hcond
                    ⟨(toLowerChar_eq_dot c1).mp hcl.1,
                     by rw [← isDig_toLowerChar]; exact hcl.2.1,
                     by rw [← isDig_toLowerChar]; exact hcl.2.2⟩),
                  if_neg hcond]

theorem firstMatch_map_toLower (text : List Char) :
    firstMatch (text.map toLowerChar) = firstMatch text := by
  induction text with
  | nil => rfl
  | cons c cs ih =>
      rw [List.map_cons,
        show firstMatch (toLowerChar c :: cs.map toLowerChar) =
          if isDig (toLowerChar c) = true then
            some (matchFrom (toLowerChar c :: cs.map toLowerChar))
          else firstMatch (cs.map toLowerChar) from rfl,
        show firstMatch (c :: cs) =
          if isDig c = true then some (matchFrom (c :: cs)) else firstMatch cs from rfl,
        isDig_toLowerChar]
      by_cases hc : isDig c = true
      · rw [if_pos hc, if_pos hc, ← List.map_cons, matchFrom_map_toLower]
      · rw [if_neg hc, if_neg hc, ih]

/-- **C3.** The parser's amount suggestion is absent exactly when the input
has no digit (no error is raised), and any returned suggestion is the first
substring of the input matching `\d+(\.\d{2})?` — leftmost start, greedy
length. -/
theorem parseVoiceInput_amount_spec (cats : List Category) (text : List Char) :
    ((parseVoiceInput cats text).amount = none ↔ ∀ c ∈ text, isDig c = false) ∧
    (∀ m, (parseVoiceInput cats text).amount = some m → FirstNumTok text m) := by
  have hred : (parseVoiceInput cats text).amount = firstMatch text := by
    show firstMatch (text.map toLowerChar) = firstMatch text
    exact firstMatch_map_toLower text
  constructor
  · rw [hred]
    exact firstMatch_none_iff text
  · intro m hm
    rw [hred] at hm
    exact firstMatch_some_first text m hm

/-- Witness for **C3**: on `"Spent 500 rupees on groceries"` the parser
suggests exactly the substring `500`, and it is the first regex match. -/
theorem parseVoiceInput_amount_spec_witness :
    FirstNumTok (("Spent 500 rupees on groceries").toList) (("500").toList) :=
  (parseVoiceInput_amount_spec [] (("Spent 500 rupees on groceries").toList)).2
    (("500").toList) (by decide)

/-- **C4.** The parser infers type `income` exactly when the text,
case-insensitively, contains one of `earned`, `received`, `income`; every
other input gets type `expense`, and no input is rejected. -/
theorem parseVoiceInput_type_spec (cats : List Category) (text : List Char) :
    ((parseVoiceInput cats text).txType = TxType.income ↔
      (earnedTok <:+: text.map toLowerChar ∨ receivedTok <:+: text.map toLowerChar ∨
        incomeTok <:+: text.map toLowerChar)) ∧
    ((parseVoiceInput cats text).txType = TxType.income ∨
      (parseVoiceInput cats text).txType = TxType.expense) := by
  have hshow : (parseVoiceInput cats text).txType =
      (if containsStr (text.map toLowerChar) earnedTok ||
          containsStr (text.map toLowerChar) receivedTok ||
          containsStr (text.map toLowerChar) incomeTok then
        TxType.income else TxType.expense) := rfl
  constructor
  · by_cases hb : (containsStr (text.map toLowerChar) earnedTok ||
        containsStr (text.map toLowerChar) receivedTok ||
        containsStr (text.map toLowerChar) incomeTok) = true
    · rw [hshow, if_pos hb]
      refine ⟨fun _ => ?_, fun _ => rfl⟩
      simpa [containsStr, Bool.or_eq_true, decide_eq_true_iff, or_assoc] using hb
    · rw [hshow, if_neg hb]
      refine ⟨fun hx => absurd hx (by decide), fun hor => absurd ?_ hb⟩
      simpa [containsStr, Bool.or_eq_true, decide_eq_true_iff, or_assoc] using hor
  · rw [hshow]
    by_cases hb : (containsStr (text.map toLowerChar) earnedTok ||
        containsStr (text.map toLowerChar) receivedTok ||
        containsStr (text.map toLowerChar) incomeTok) = true
    · rw [if_pos hb]
      exact Or.inl rfl
    · rw [if_neg hb]
      exact Or.inr rfl

/-- Witness for **C4**: `"Earned 2000 dollars from freelancing"` is typed
`income` because it contains `earned`. -/
theorem parseVoiceInput_type_spec_witness :
    (parseVoiceInput [] (("Earned 2000 dollars from freelancing").toList)).txType =
      TxType.income :=
  (parseVoiceInput_type_spec [] (("Earned 2000 dollars from freelancing").toList)).1.mpr
    (Or.inl (by decide))

theorem find?_eq_some_split {α : Type} (p : α → Bool) :
    ∀ (l : List α) (a : α), l.find? p = some a →
      p a = true ∧ ∃ l1 l2, l = l1 ++ a :: l2 ∧ ∀ x ∈ l1, p x = false := by
  intro l
  induction l with
  | nil => intro a h; simp [List.find?] at h
  | cons b bs ih =>
      intro a h
      rw [List.find?_cons] at h
      cases hb : p b with
      | true =>
          rw [hb] at h
          have hba : b = a := by
            injection h
          subst hba
          exact ⟨hb, [], bs, rfl, by simp⟩
      | false =>
          rw [hb] at h
          obtain ⟨hpa, l1, l2, hl, hall⟩ := ih a h
          refine ⟨hpa, b :: l1, l2, by rw [hl]; rfl, ?_⟩
          intro x hx
          rcases List.mem_cons.mp hx with rfl | hx2
          · exact hb
          · exact hall x hx2

theorem catMatchB_iff (lower : List Char) (cat : Category) :
    catMatchB lower cat = true ↔ CatMatches lower cat := by
  simp only [catMatchB, CatMatches, containsStr, Bool.or_eq_true, Bool.and_eq_true,
    decide_eq_true_iff]
  tauto

/-- **C5.** The parser's category suggestion is the first category, in list
order, matching the substring-or-synonym rule; it is `none` exactly when no
category matches. -/
theorem parseVoiceInput_category_spec (cats : List Category) (text : List Char) :
    ((parseVoiceInput cats text).category = none ↔
      ∀ c ∈ cats, ¬CatMatches (text.map toLowerChar) c) ∧
    (∀ c, (parseVoiceInput cats text).category = some c →
      CatMatches (text.map toLowerChar) c ∧
      ∃ l1 l2, cats = l1 ++ c :: l2 ∧
        ∀ c2 ∈ l1, ¬CatMatches (text.map toLowerChar) c2) := by
  have hshow : (parseVoiceInput cats text).category =
      cats.find? (catMatchB (text.map toLowerChar)) := rfl
  constructor
  · rw [hshow, List.find?_eq_none]
    constructor
    · intro h c hc hm
      exact (h c hc) ((catMatchB_iff _ c).mpr hm)
    · intro h c hc hbc
      exact (h c hc) ((catMatchB_iff _ c).mp hbc)
  · intro c hc
    rw [hshow] at hc
    obtain ⟨hpc, l1, l2, heq, hall⟩ :=
      find?_eq_some_split (catMatchB (text.map toLowerChar)) cats c hc
    refine ⟨(catMatchB_iff _ c).mp hpc, l1, l2, heq, ?_⟩
    intro c2 hc2 hm
    have hfalse := hall c2 hc2
    rw [(catMatchB_iff _ c2).mpr hm] at hfalse
    exact absurd hfalse (by decide)

/-- Witness for **C5**: on `"Spent 500 rupees on groceries"` with the seeded
category list `[Groceries]`, the parser suggests `Groceries`, which matches,
and nothing precedes it. -/
theorem parseVoiceInput_category_spec_witness :
    CatMatches ((("Spent 500 rupees on groceries").toList).map toLowerChar) groceriesCat ∧
    ∃ l1 l2, [groceriesCat] = l1 ++ groceriesCat :: l2 ∧
      ∀ c2 ∈ l1, ¬CatMatches ((("Spent 500 rupees on groceries").toList).map toLowerChar) c2 :=
  (parseVoiceInput_category_spec [groceriesCat]
      (("Spent 500 rupees on groceries").toList)).2 groceriesCat (by decide)

end Ouch
